import Mathlib

/-!
# Verification of the ferenda multi-source document resolution engine

Shallow embedding of `ferenda/compositerepository.py`
(`CompositeStore.list_basefiles_for`, `CompositeRepository.parse`,
`get_preferred_instances`, `copy_parsed`) and of the uri-map /
duplicate-detection logic in `ferenda/sources/legal/se/dv.py`
(`DV.readmapfile`, `DV.postprocess_doc`, `DV.get_parser` recognizer
tables), together with theorems settling the specified properties.

External Python library behaviour that the repository code calls but whose
source is not part of the embedded code base (`ferenda.util` helpers, the
FSM parser engine, `re.match`) is modelled explicitly, each such definition
carrying a comment saying what it stands for.
-/

namespace Ferenda

/-! ## Python value model

`DocumentRepository.parse` (in a subrepo) returns `True`, `False`/`None`,
or a string (the corrected basefile).  We model the three shapes together
with Python truthiness. -/

inductive PyVal where
  | pyFalse : PyVal
  | pyTrue : PyVal
  | pyStr : String → PyVal
deriving DecidableEq, Repr

/-- Python truthiness of the values `parse` can return: `False`/`None` is
falsy, `True` is truthy, a string is truthy iff non-empty. -/
def PyVal.truthy : PyVal → Bool
  | .pyFalse => false
  | .pyTrue => true
  | .pyStr s => !(s = "")

/-- Python `ret != basefile` where `basefile` is a string: a string compares
by contents, `True`/`False` are never equal to a string. -/
def pyNeStr : PyVal → String → Bool
  | .pyStr s, b => !(s = b)
  | _, _ => true

/-- The value assigned to `basefile` by `basefile = ret` in the rename
branch.  Only the string case is reachable there (the branch is guarded by
`ret is not True` under `if ret:`); the other cases are given their Python
`str()` spelling so the function is total. -/
def PyVal.asBasefile : PyVal → String
  | .pyStr s => s
  | .pyTrue => "True"
  | .pyFalse => "False"

/-! ## CompositeRepository.parse -/

/-- Outcome of calling `inst.parse(basefile)` on one subrepo: either a
returned value or a raised exception (identified by a string). -/
inductive ParseOutcome where
  | ret : PyVal → ParseOutcome
  | exc : String → ParseOutcome
deriving DecidableEq, Repr

/-- One subrepo, as seen by `CompositeRepository.parse` for one fixed
basefile:

* `name` — `inst.qualified_class_name()`;
* `listed` — `basefile in self.store.basefiles[c]` (recorded during a prior
  `list_basefiles_for("parse")` enumeration);
* `downloaded` — `os.path.exists(inst.store.downloaded_path(basefile))`;
* `needed` — `inst.store.needed(basefile, "parse")`;
* `outcome` — what `inst.parse(basefile)` does. -/
structure Subrepo where
  name : String
  listed : Bool
  downloaded : Bool
  needed : Bool
  outcome : ParseOutcome
deriving DecidableEq, Repr

/-- The environment of one `CompositeRepository.parse(basefile)` call:
the ordered subrepo list, the relevant config flags, and whether
`os.path.exists(self.store.parsed_path(basefile))` holds. -/
structure CompositeEnv where
  subrepos : List Subrepo
  force : Bool
  parseforce : Bool
  failfast : Bool
  parsedExists : Bool
deriving DecidableEq, Repr

/-- Observable actions performed by `CompositeRepository.parse`:
invoking a subrepo's `parse`, touching (creating empty) the composite's
parsed file for a basefile (`self.store.open_parsed(oldbasefile, "w")`),
and calling `self.copy_parsed(basefile, inst)`. -/
inductive Action where
  | invokeParse : String → Action
  | touchParsed : String → Action
  | copyParsed : String → String → Action
deriving DecidableEq, Repr

/-- Result of `CompositeRepository.parse`: a returned value, a raised
`DocumentRenamedError` (carrying old and new basefile), a raised
`errors.ParseError` (carrying its message), or a re-raised subrepo
exception (failfast mode). -/
inductive ParseResult where
  | success : PyVal → ParseResult
  | renamed : String → String → ParseResult
  | parseFailed : String → ParseResult
  | subrepoRaised : String → ParseResult
deriving DecidableEq, Repr

/-- `CompositeRepository.get_preferred_instances`: the subrepos, in declared
order, that either listed the basefile during enumeration or have its
downloaded file physically present. -/
def preferredInstances (e : CompositeEnv) : List Subrepo :=
  e.subrepos.filter (fun s => s.listed || s.downloaded)

/-- Whether iterating subrepo `s` makes the `for inst in
get_preferred_instances(...)` loop stop: its parse returned a truthy value
(`if ret: break`), or it raised and `config.failfast` re-raises. -/
def breaks (failfast : Bool) (s : Subrepo) : Bool :=
  match s.outcome with
  | .ret v => v.truthy
  | .exc _ => failfast

/-- Result of the per-source loop: a re-raised exception (failfast), a
winning subrepo together with its truthy return value, or exhaustion with
`ret` falsy. -/
inductive LoopOut where
  | raised : String → LoopOut
  | won : Subrepo → PyVal → LoopOut
  | exhausted : LoopOut
deriving DecidableEq, Repr

/-- The `for inst in self.get_preferred_instances(basefile)` loop of
`CompositeRepository.parse`: try each instance in order; a truthy return
breaks with a winner; an exception propagates if `failfast`, else it is
logged at debug level, `ret = False`, and the loop continues. -/
def runLoop (failfast : Bool) : List Subrepo → List Action × LoopOut
  | [] => ([], .exhausted)
  | s :: rest =>
    match s.outcome with
    | .ret v =>
      if v.truthy then
        ([.invokeParse s.name], .won s v)
      else
        let r := runLoop failfast rest
        (.invokeParse s.name :: r.1, r.2)
    | .exc e =>
      if failfast then
        ([.invokeParse s.name], .raised e)
      else
        let r := runLoop failfast rest
        (.invokeParse s.name :: r.1, r.2)

/-- The tail of `CompositeRepository.parse` once `ret` is truthy: if
`ret is not True and ret != basefile`, the basefile is renamed — touch the
old parsed path, `copy_parsed` under the new name, and (since the new name
differs from the old) raise `DocumentRenamedError(True, msg, oldbasefile,
basefile)` after everything else; otherwise `copy_parsed` under the
requested name and return `ret`. -/
def finishWinner (basefile : String) (s : Subrepo) (v : PyVal) :
    List Action × ParseResult :=
  if (!(v = .pyTrue)) && pyNeStr v basefile then
    ([.touchParsed basefile, .copyParsed v.asBasefile s.name],
     if !(v.asBasefile = basefile) then .renamed basefile v.asBasefile
     else .success v)
  else
    ([.copyParsed basefile s.name], .success v)

/-- `", ".join(...)` over qualified class names. -/
def joinComma (l : List String) : String :=
  String.intercalate ", " l

/-- The message of the `errors.ParseError` raised when no instance
succeeded: if some subrepos listed the basefile (`basefile in
self.store.basefiles[x]`), name those; otherwise report only the number of
configured subrepos. -/
def noParseMsg (e : CompositeEnv) (basefile : String) : String :=
  let listed := (e.subrepos.filter (fun s => s.listed)).map (fun s => s.name)
  if !(listed = []) then
    "No instance of " ++ joinComma listed ++ " was able to parse " ++ basefile
  else
    "No available instance (out of " ++ toString e.subrepos.length ++
      ") had basefile " ++ basefile

/-- The initial short-circuit of `CompositeRepository.parse`: unless
`config.force` or `config.parseforce` is set, if any subrepo's store
reports the parse is not needed and the composite's parsed file exists,
`parse` returns `True` at once.  (The code's `for c in self.subrepos`
loop with an early `return` is equivalent to this `any`.) -/
def skipShortcut (e : CompositeEnv) : Bool :=
  (!(e.force || e.parseforce)) &&
    e.subrepos.any (fun s => (!s.needed) && e.parsedExists)

/-- `CompositeRepository.parse(basefile)` (compositerepository.py lines
219–294), as a pair of the performed actions (in order) and the final
result. -/
def compositeParse (e : CompositeEnv) (basefile : String) :
    List Action × ParseResult :=
  if skipShortcut e then
    ([], .success .pyTrue)
  else
    let r := runLoop e.failfast (preferredInstances e)
    match r.2 with
    | .raised ex => (r.1, .subrepoRaised ex)
    | .won s v =>
      (r.1 ++ (finishWinner basefile s v).1, (finishWinner basefile s v).2)
    | .exhausted => (r.1, .parseFailed (noParseMsg e basefile))

/-- Is an action an `invokeParse`? -/
def Action.isInvoke : Action → Bool
  | .invokeParse _ => true
  | _ => false

/-- Does the first character list start the second? -/
def charsStartWith : List Char → List Char → Bool
  | [], _ => true
  | _ :: _, [] => false
  | a :: as, b :: bs => (a = b) && charsStartWith as bs

/-- Does the first character list occur inside the second? -/
def charsOccur (needle : List Char) : List Char → Bool
  | [] => charsStartWith needle []
  | c :: rest => charsStartWith needle (c :: rest) || charsOccur needle rest

/-- Python `needle in haystack` for strings: substring containment. -/
def pyInStr (needle hay : String) : Bool :=
  charsOccur needle.data hay.data

/-! ## Lemmas about the per-source loop -/

/-- Iterating a prefix none of whose members stops the loop just records
their invocations and continues with the rest. -/
theorem runLoop_append_no_break (failfast : Bool) (l₁ l₂ : List Subrepo)
    (h : ∀ x ∈ l₁, breaks failfast x = false) :
    runLoop failfast (l₁ ++ l₂) =
      ((l₁.map (fun x => Action.invokeParse x.name)) ++ (runLoop failfast l₂).1,
       (runLoop failfast l₂).2) := by
  induction l₁ with
  | nil => simp [runLoop]
  | cons s t ih =>
    have hs := h s (by simp)
    have ht : ∀ x ∈ t, breaks failfast x = false := fun x hx => h x (by simp [hx])
    cases hout : s.outcome with
    | ret v =>
      have hv : v.truthy = false := by simpa [breaks, hout] using hs
      simp [runLoop, hout, hv, ih ht]
    | exc ex =>
      have hf : failfast = false := by simpa [breaks, hout] using hs
      subst hf
      simp [runLoop, hout, ih ht]

/-- With `failfast` off, the loop never re-raises an exception. -/
theorem runLoop_no_failfast_no_raise (l : List Subrepo) (ex : String) :
    (runLoop false l).2 ≠ .raised ex := by
  induction l with
  | nil => simp [runLoop]
  | cons s t ih =>
    cases hout : s.outcome with
    | ret v =>
      by_cases hv : v.truthy = true <;> simp [runLoop, hout, hv, ih]
    | exc e => simp [runLoop, hout, ih]

/-- The loop on a non-empty list always invokes the head's parse first. -/
theorem runLoop_head_invoke (failfast : Bool) (t : Subrepo) (rest : List Subrepo) :
    ∃ tr, (runLoop failfast (t :: rest)).1 = Action.invokeParse t.name :: tr := by
  cases hout : t.outcome with
  | ret v =>
    by_cases hv : v.truthy = true <;> simp [runLoop, hout, hv]
  | exc e =>
    by_cases hf : failfast = true <;> simp [runLoop, hout, hf]

/-- The winner-processing tail performs no further parse invocations. -/
theorem finishWinner_no_invoke (basefile : String) (s : Subrepo) (v : PyVal) :
    (finishWinner basefile s v).1.filter Action.isInvoke = [] := by
  unfold finishWinner
  by_cases h : ((!(v = .pyTrue)) && pyNeStr v basefile) = true <;>
    simp [h, Action.isInvoke]

/-- Every `copy_parsed` call in the winner-processing tail uses the winning
instance. -/
theorem finishWinner_copy_name (basefile : String) (s : Subrepo) (v : PyVal)
    (b n : String) (h : Action.copyParsed b n ∈ (finishWinner basefile s v).1) :
    n = s.name := by
  unfold finishWinner at h
  by_cases hc : ((!(v = .pyTrue)) && pyNeStr v basefile) = true <;>
      simp [hc] at h
  · exact h.2
  · exact h.2

/-- The winner-processing tail never yields a re-raised exception. -/
theorem finishWinner_not_raised (basefile : String) (s : Subrepo) (v : PyVal)
    (ex : String) : (finishWinner basefile s v).2 ≠ .subrepoRaised ex := by
  unfold finishWinner
  by_cases h : ((!(v = .pyTrue)) && pyNeStr v basefile) = true
  · simp [h]
    split <;> simp
  · simp [h]

/-- If the skip does not fire, the entries of `get_preferred_instances`
before the first loop-stopping one are invoked and the winner's value is
processed by the tail of `parse`. -/
theorem compositeParse_won (e : CompositeEnv) (basefile : String)
    (l₁ l₂ : List Subrepo) (s : Subrepo) (v : PyVal)
    (hskip : skipShortcut e = false)
    (hpref : preferredInstances e = l₁ ++ s :: l₂)
    (hpre : ∀ x ∈ l₁, breaks e.failfast x = false)
    (hout : s.outcome = .ret v) (htruthy : v.truthy = true) :
    compositeParse e basefile =
      ((l₁.map (fun x => Action.invokeParse x.name)) ++
         Action.invokeParse s.name :: (finishWinner basefile s v).1,
       (finishWinner basefile s v).2) := by
  have hrun : runLoop e.failfast (preferredInstances e) =
      ((l₁.map (fun x => Action.invokeParse x.name)) ++
        [Action.invokeParse s.name], .won s v) := by
    rw [hpref, runLoop_append_no_break e.failfast l₁ (s :: l₂) hpre]
    simp [runLoop, hout, htruthy]
  simp [compositeParse, hskip, hrun]

/-- If the skip does not fire and no eligible subrepo stops the loop, all
eligible subrepos are invoked and the `ParseError` is raised. -/
theorem compositeParse_exhausted (e : CompositeEnv) (basefile : String)
    (hskip : skipShortcut e = false)
    (hnb : ∀ x ∈ preferredInstances e, breaks e.failfast x = false) :
    compositeParse e basefile =
      ((preferredInstances e).map (fun x => Action.invokeParse x.name),
       .parseFailed (noParseMsg e basefile)) := by
  have hrun : runLoop e.failfast (preferredInstances e) =
      ((preferredInstances e).map (fun x => Action.invokeParse x.name),
       .exhausted) := by
    have h := runLoop_append_no_break e.failfast (preferredInstances e) [] hnb
    simpa [runLoop] using h
  simp [compositeParse, hskip, hrun]

/-! ## The claims about CompositeRepository.parse -/

/-- **C1.** For every basefile, `CompositeRepository.parse` attempts the
eligible subrepos (`get_preferred_instances`: those that listed the
basefile during enumeration, or whose downloaded file is physically
present) in declared order; given that every eligible subrepo before `s`
neither returns truthy nor aborts the run, and `s`'s parse returns a
truthy value, exactly the eligible subrepos up to and including `s` are
invoked, nothing after `s` is ever invoked, the final result is the one
computed from `s`'s return value, and every artifact propagation uses
`s`. -/
theorem composite_parse_fallback_order (e : CompositeEnv) (basefile : String)
    (l₁ l₂ : List Subrepo) (s : Subrepo) (v : PyVal)
    (hskip : skipShortcut e = false)
    (hpref : preferredInstances e = l₁ ++ s :: l₂)
    (hpre : ∀ x ∈ l₁, breaks e.failfast x = false)
    (hout : s.outcome = .ret v) (htruthy : v.truthy = true) :
    (compositeParse e basefile).1.filter Action.isInvoke =
      (l₁ ++ [s]).map (fun x => Action.invokeParse x.name) ∧
    (compositeParse e basefile).2 = (finishWinner basefile s v).2 ∧
    (∀ b n, Action.copyParsed b n ∈ (compositeParse e basefile).1 →
      n = s.name) := by
  have h := compositeParse_won e basefile l₁ l₂ s v hskip hpref hpre hout htruthy
  rw [h]
  refine ⟨?_, rfl, ?_⟩
  · have h1 : (l₁.map (fun x => Action.invokeParse x.name)).filter
        Action.isInvoke = l₁.map (fun x => Action.invokeParse x.name) := by
      refine List.filter_eq_self.mpr ?_
      intro a ha
      obtain ⟨x, hx, rfl⟩ := List.mem_map.mp ha
      rfl
    simp [List.filter_append, h1, finishWinner_no_invoke, Action.isInvoke,
      List.map_append]
  · intro b n hmem
    rcases List.mem_append.mp hmem with hmem | hmem
    · obtain ⟨x, hx, hxa⟩ := List.mem_map.mp hmem
      exact Action.noConfusion hxa
    · rcases List.mem_cons.mp hmem with hmem | hmem
      · exact Action.noConfusion hmem
      · exact finishWinner_copy_name basefile s v b n hmem

/-- **C2.** Let `s` be the first eligible subrepo whose parse raises (all
eligible subrepos before it return falsy).  With `config.failfast` set,
that exception propagates unchanged out of `CompositeRepository.parse` and
no further subrepo is invoked; with it unset, the exception is swallowed
(no exception ever escapes) and the next eligible subrepo, when there is
one, is invoked. -/
theorem composite_parse_failfast_toggle (e : CompositeEnv) (basefile : String)
    (l₁ l₂ : List Subrepo) (s : Subrepo) (ex : String)
    (hskip : skipShortcut e = false)
    (hpref : preferredInstances e = l₁ ++ s :: l₂)
    (hpre : ∀ x ∈ l₁, breaks e.failfast x = false)
    (hout : s.outcome = .exc ex) :
    (e.failfast = true →
      compositeParse e basefile =
        ((l₁ ++ [s]).map (fun x => Action.invokeParse x.name),
         .subrepoRaised ex)) ∧
    (e.failfast = false →
      (∀ ex2, (compositeParse e basefile).2 ≠ .subrepoRaised ex2) ∧
      (∀ t rest, l₂ = t :: rest →
        Action.invokeParse t.name ∈ (compositeParse e basefile).1)) := by
  constructor
  · intro hff
    have hrun : runLoop e.failfast (preferredInstances e) =
        ((l₁.map (fun x => Action.invokeParse x.name)) ++
          [Action.invokeParse s.name], .raised ex) := by
      rw [hpref, runLoop_append_no_break e.failfast l₁ (s :: l₂) hpre]
      simp [runLoop, hout, hff]
    simp [compositeParse, hskip, hrun, List.map_append]
  · intro hff
    have hrun : runLoop e.failfast (preferredInstances e) =
        ((l₁.map (fun x => Action.invokeParse x.name)) ++
          Action.invokeParse s.name :: (runLoop false l₂).1,
         (runLoop false l₂).2) := by
      rw [hpref, runLoop_append_no_break e.failfast l₁ (s :: l₂) hpre, hff]
      simp [runLoop, hout]
    constructor
    · intro ex2
      cases hr : (runLoop false l₂).2 with
      | raised e2 => exact absurd hr (runLoop_no_failfast_no_raise l₂ e2)
      | won s2 v2 =>
        simp [compositeParse, hskip, hrun, hr]
        exact finishWinner_not_raised basefile s2 v2 ex2
      | exhausted => simp [compositeParse, hskip, hrun, hr]
    · intro t rest hl₂
      subst hl₂
      obtain ⟨tr, htr⟩ := runLoop_head_invoke false t rest
      cases hr : (runLoop false (t :: rest)).2 with
      | raised e2 => exact absurd hr (runLoop_no_failfast_no_raise _ e2)
      | won s2 v2 => simp [compositeParse, hskip, hrun, hr, htr]
      | exhausted => simp [compositeParse, hskip, hrun, hr, htr]

/-- **C4.** If the winning subrepo's parse returns a basefile string `nb`
different from the requested one, `CompositeRepository.parse` touches an
empty placeholder at the old basefile's parsed path, then propagates the
artifacts under the new basefile, and only after that raises
`DocumentRenamedError` carrying both the old and the new basefile (the
rename result comes after all recorded actions). -/
theorem composite_parse_rename (e : CompositeEnv) (basefile : String)
    (l₁ l₂ : List Subrepo) (s : Subrepo) (nb : String)
    (hskip : skipShortcut e = false)
    (hpref : preferredInstances e = l₁ ++ s :: l₂)
    (hpre : ∀ x ∈ l₁, breaks e.failfast x = false)
    (hout : s.outcome = .ret (.pyStr nb))
    (hnb : nb ≠ "") (hne : nb ≠ basefile) :
    compositeParse e basefile =
      ((l₁ ++ [s]).map (fun x => Action.invokeParse x.name) ++
         [Action.touchParsed basefile, Action.copyParsed nb s.name],
       .renamed basefile nb) := by
  have htruthy : (PyVal.pyStr nb).truthy = true := by
    simp [PyVal.truthy, hnb]
  have h := compositeParse_won e basefile l₁ l₂ s (.pyStr nb)
    hskip hpref hpre hout htruthy
  rw [h]
  have hfin : finishWinner basefile s (.pyStr nb) =
      ([Action.touchParsed basefile, Action.copyParsed nb s.name],
       .renamed basefile nb) := by
    simp [finishWinner, pyNeStr, PyVal.asBasefile, hne]
  rw [hfin]
  simp [List.map_append]

/-- **C5 (amended).** If the skip does not fire and no eligible subrepo
succeeds, `CompositeRepository.parse` invokes every eligible subrepo and
raises `ParseError`; the error message names exactly the subrepos that
listed the basefile during enumeration (when there is at least one such),
not all attempted ones — a subrepo attempted only because its downloaded
file exists is omitted. -/
theorem composite_parse_error_names (e : CompositeEnv) (basefile : String)
    (hskip : skipShortcut e = false)
    (hnb : ∀ x ∈ preferredInstances e, breaks e.failfast x = false) :
    (compositeParse e basefile).1 =
      (preferredInstances e).map (fun x => Action.invokeParse x.name) ∧
    (compositeParse e basefile).2 = .parseFailed (noParseMsg e basefile) ∧
    (e.subrepos.filter (fun s => s.listed) ≠ [] →
      noParseMsg e basefile =
        "No instance of " ++
          joinComma ((e.subrepos.filter (fun s => s.listed)).map
            (fun s => s.name)) ++
          " was able to parse " ++ basefile) := by
  have h := compositeParse_exhausted e basefile hskip hnb
  rw [h]
  refine ⟨rfl, rfl, ?_⟩
  intro hne
  have : ((e.subrepos.filter (fun s => s.listed)).map (fun s => s.name)) ≠
      [] := by
    simpa using hne
  simp [noParseMsg, this]

/-- **C3 (amended).** When neither `config.force` nor `config.parseforce`
is set, at least one eligible source exists, none of the eligible sources
report that a parse is needed, and the composite already has a parsed
artifact, `CompositeRepository.parse` performs no action at all and
returns `True`. -/
theorem composite_parse_skip (e : CompositeEnv) (basefile : String)
    (hforce : e.force = false) (hpf : e.parseforce = false)
    (hne : preferredInstances e ≠ [])
    (hneed : ∀ x ∈ preferredInstances e, x.needed = false)
    (hparsed : e.parsedExists = true) :
    compositeParse e basefile = ([], .success .pyTrue) := by
  obtain ⟨s, hs⟩ : ∃ s, s ∈ preferredInstances e := by
    cases h : preferredInstances e with
    | nil => exact absurd h hne
    | cons a t => exact ⟨a, by simp [h]⟩
  have hmem : s ∈ e.subrepos := List.mem_of_mem_filter hs
  have hn : s.needed = false := hneed s hs
  have hany : e.subrepos.any (fun x => (!x.needed) && e.parsedExists) =
      true :=
    List.any_eq_true.mpr ⟨s, hmem, by simp [hn, hparsed]⟩
  have hsk : skipShortcut e = true := by
    simp [skipShortcut, hforce, hpf, hany]
  simp [compositeParse, hsk]

/-! ## Concrete environments for witnesses and counterexamples -/

/-- Subrepo that is listed and returns `False` from parse. -/
def subA : Subrepo :=
  { name := "A", listed := true, downloaded := false, needed := true,
    outcome := .ret .pyFalse }

/-- Subrepo that is listed and returns `True` from parse. -/
def subB : Subrepo :=
  { name := "B", listed := true, downloaded := false, needed := true,
    outcome := .ret .pyTrue }

/-- Subrepo after the winner, never to be invoked. -/
def subC : Subrepo :=
  { name := "C", listed := true, downloaded := false, needed := true,
    outcome := .ret .pyTrue }

/-- Subrepo whose parse raises an `IOError`. -/
def subF : Subrepo :=
  { name := "F", listed := true, downloaded := false, needed := true,
    outcome := .exc "IOError" }

/-- Subrepo whose parse returns a different basefile (a rename). -/
def subR : Subrepo :=
  { name := "R", listed := true, downloaded := false, needed := true,
    outcome := .ret (.pyStr "newid") }

/-- Subrepo that never listed the basefile but has its downloaded file
physically present, and whose parse raises. -/
def subD : Subrepo :=
  { name := "ferenda.sources.SubD", listed := false, downloaded := true,
    needed := true, outcome := .exc "IOError" }

/-- Subrepo that is neither listed nor downloaded (ineligible) and whose
own freshness check says a parse is needed. -/
def subX : Subrepo :=
  { name := "X", listed := false, downloaded := false, needed := true,
    outcome := .ret .pyFalse }

def envC1 : CompositeEnv :=
  { subrepos := [subA, subB, subC], force := false, parseforce := false,
    failfast := false, parsedExists := false }

def envC2 : CompositeEnv :=
  { subrepos := [subF, subB], force := false, parseforce := false,
    failfast := true, parsedExists := false }

def envC3 : CompositeEnv :=
  { subrepos := [subX], force := false, parseforce := false,
    failfast := false, parsedExists := true }

def envC3w : CompositeEnv :=
  { subrepos := [{ name := "A", listed := true, downloaded := false,
                   needed := false, outcome := .ret .pyTrue }],
    force := false, parseforce := false, failfast := false,
    parsedExists := true }

def envC4 : CompositeEnv :=
  { subrepos := [subR], force := false, parseforce := false,
    failfast := false, parsedExists := false }

def envC5 : CompositeEnv :=
  { subrepos := [subD], force := false, parseforce := false,
    failfast := false, parsedExists := false }

/-- Witness for C1: three listed sources; the first returns falsy, the
second succeeds, the third is never invoked. -/
theorem composite_parse_fallback_order_witness :
    (compositeParse envC1 "doc1").1.filter Action.isInvoke =
      ([subA] ++ [subB]).map (fun x => Action.invokeParse x.name) ∧
    (compositeParse envC1 "doc1").2 = (finishWinner "doc1" subB .pyTrue).2 ∧
    (∀ b n, Action.copyParsed b n ∈ (compositeParse envC1 "doc1").1 →
      n = subB.name) :=
  composite_parse_fallback_order envC1 "doc1" [subA] [subC] subB .pyTrue
    (by decide) (by decide) (by decide) (by decide) (by decide)

/-- Witness for C2: the first source raises; with failfast set the
exception propagates and the second source is never invoked. -/
theorem composite_parse_failfast_toggle_witness :
    (envC2.failfast = true →
      compositeParse envC2 "doc1" =
        (([] ++ [subF]).map (fun x : Subrepo => Action.invokeParse x.name),
         .subrepoRaised "IOError")) ∧
    (envC2.failfast = false →
      (∀ ex2, (compositeParse envC2 "doc1").2 ≠ .subrepoRaised ex2) ∧
      (∀ t rest, [subB] = t :: rest →
        Action.invokeParse t.name ∈ (compositeParse envC2 "doc1").1)) :=
  composite_parse_failfast_toggle envC2 "doc1" [] [subB] subF "IOError"
    (by decide) (by decide) (by decide) (by decide)

/-- **C3 counterexample.** In `envC3` the single subrepo is ineligible (it
neither listed the basefile nor has it downloaded), so no eligible source
reports that a parse is needed; the composite has a parsed artifact and no
force flag is set — yet `parse` does not return `True` (it raises
`ParseError`), refuting the claim as stated. -/
theorem composite_parse_skip_counterexample :
    (envC3.force = false ∧ envC3.parseforce = false ∧
     (∀ x ∈ preferredInstances envC3, x.needed = false) ∧
     envC3.parsedExists = true) ∧
    ¬ ((compositeParse envC3 "doc1").2 = .success .pyTrue) := by
  decide

/-- Witness for the amended C3: one eligible not-needed source and an
existing composite parsed file make `parse` skip and return `True`. -/
theorem composite_parse_skip_witness :
    compositeParse envC3w "doc1" = ([], .success .pyTrue) :=
  composite_parse_skip envC3w "doc1" rfl rfl (by decide) (by decide) rfl

/-- Witness for C4: the only source reports the basefile is really
`"newid"`; the old parsed path is touched, artifacts propagate under the
new name, and the rename error carries both names. -/
theorem composite_parse_rename_witness :
    compositeParse envC4 "oldid" =
      (([] ++ [subR]).map (fun x : Subrepo => Action.invokeParse x.name) ++
        [Action.touchParsed "oldid", Action.copyParsed "newid" subR.name],
       .renamed "oldid" "newid") :=
  composite_parse_rename envC4 "oldid" [] [] subR "newid"
    (by decide) (by decide) (by decide) (by decide) (by decide) (by decide)

/-- **C5 counterexample.** The only subrepo was attempted (its parse was
invoked) because its downloaded file is physically present, but it never
listed the basefile; the raised `ParseError` message
`"No available instance (out of 1) had basefile doc1"` does not name it,
refuting the claim that the message names the attempted subrepos. -/
theorem composite_parse_error_names_counterexample :
    Action.invokeParse "ferenda.sources.SubD" ∈
      (compositeParse envC5 "doc1").1 ∧
    (compositeParse envC5 "doc1").2 =
      .parseFailed "No available instance (out of 1) had basefile doc1" ∧
    pyInStr "SubD" "No available instance (out of 1) had basefile doc1" =
      false := by
  decide

/-- Witness for the amended C5 at a concrete environment. -/
theorem composite_parse_error_names_witness :
    (compositeParse envC5 "doc1").1 =
      (preferredInstances envC5).map (fun x => Action.invokeParse x.name) ∧
    (compositeParse envC5 "doc1").2 =
      .parseFailed (noParseMsg envC5 "doc1") ∧
    (envC5.subrepos.filter (fun s => s.listed) ≠ [] →
      noParseMsg envC5 "doc1" =
        "No instance of " ++
          joinComma ((envC5.subrepos.filter (fun s => s.listed)).map
            (fun s => s.name)) ++
          " was able to parse " ++ "doc1") :=
  composite_parse_error_names envC5 "doc1" (by decide) (by decide)

/-! ## copy_parsed: idempotent artifact propagation (C6)

`CompositeRepository.copy_parsed(basefile, instance)` links or copies the
entry, distilled and parsed artifacts (plus, for directory storage, all
parsed attachments) from the winning instance's store into the
composite's, unless a freshness check shows the composite's copies are
already current. -/

/-- Which of the two stores a path belongs to. -/
inductive StoreId where
  | subrepo : StoreId
  | composite : StoreId
deriving DecidableEq, Repr

/-- The artifact paths `copy_parsed` touches: `documententry_path`,
`distilled_path`, and `parsed_path` (with an optional attachment name). -/
inductive ArtifactPath where
  | entry : StoreId → String → ArtifactPath
  | distilled : StoreId → String → ArtifactPath
  | parsed : StoreId → String → Option String → ArtifactPath
deriving DecidableEq, Repr

/-- On-disk state: each path's modification time, `none` when the file
does not exist. -/
structure FileState where
  mtime : ArtifactPath → Option Nat

/-- Modelled from the spec: `util.outfile_is_newer(infiles, outfile)`
(`ferenda/util.py` is not part of the embedded code base).  Per §4.2 the
check passes when the composite's existing copy is no older than the
source's own: the outfile exists and is at least as new as every infile;
a missing file on either side forces the copy. -/
def outfileIsNewer (fs : FileState) (infiles : List ArtifactPath)
    (outfile : ArtifactPath) : Bool :=
  match fs.mtime outfile with
  | none => false
  | some t =>
    infiles.all fun i =>
      match fs.mtime i with
      | none => false
      | some ti => decide (ti ≤ t)

/-- The per-call inputs of `copy_parsed`: `config.force`, the winning
instance's `store.storage_policy`, and
`instance.store.list_attachments(basefile, "parsed")`. -/
structure CopyEnv where
  force : Bool
  storagePolicy : String
  attachments : List String
deriving DecidableEq, Repr

/-- The link-or-copy operations `copy_parsed` performs when the freshness
check does not short-circuit: entry, distilled, parsed, and — under
directory storage — each parsed attachment. -/
def fullCopyOps (c : CopyEnv) (basefile : String) :
    List (ArtifactPath × ArtifactPath) :=
  [(.entry .subrepo basefile, .entry .composite basefile),
   (.distilled .subrepo basefile, .distilled .composite basefile),
   (.parsed .subrepo basefile none, .parsed .composite basefile none)] ++
  (if c.storagePolicy = "dir" then
    c.attachments.map fun a =>
      (.parsed .subrepo basefile (some a), .parsed .composite basefile (some a))
   else [])

/-- `CompositeRepository.copy_parsed(basefile, instance)`
(compositerepository.py lines 304–338) as the ordered list of
`(source, target)` link-or-copy operations it performs. -/
def copyParsedOps (c : CopyEnv) (fs : FileState) (basefile : String) :
    List (ArtifactPath × ArtifactPath) :=
  if (!c.force) &&
      outfileIsNewer fs [.distilled .subrepo basefile]
        (.distilled .composite basefile) &&
      outfileIsNewer fs [.parsed .subrepo basefile none]
        (.parsed .composite basefile none) then
    []
  else
    fullCopyOps c basefile

/-- Modelled from the spec: the effect of `util.link_or_copy(src, target)`
— §4.2 hard-links where possible, so the target afterwards bears its
source's modification time. -/
def applyOp (fs : FileState) (op : ArtifactPath × ArtifactPath) :
    FileState :=
  { mtime := fun p => if p = op.2 then fs.mtime op.1 else fs.mtime p }

/-- Apply a sequence of link-or-copy operations in order. -/
def applyOps (fs : FileState) (ops : List (ArtifactPath × ArtifactPath)) :
    FileState :=
  ops.foldl applyOp fs

/-- A path that is never a target keeps its modification time. -/
theorem applyOps_mtime_of_not_target (fs : FileState)
    (ops : List (ArtifactPath × ArtifactPath)) (p : ArtifactPath)
    (h : ∀ op ∈ ops, p ≠ op.2) :
    (applyOps fs ops).mtime p = fs.mtime p := by
  induction ops generalizing fs with
  | nil => rfl
  | cons op rest ih =>
    have h1 : p ≠ op.2 := h op (by simp)
    have h2 : ∀ o ∈ rest, p ≠ o.2 := fun o ho => h o (by simp [ho])
    have : applyOps fs (op :: rest) = applyOps (applyOp fs op) rest := rfl
    rw [this, ih (applyOp fs op) h2]
    simp [applyOp, h1]

/-- Attachment copies only target composite attachment paths. -/
theorem attOps_target (c : CopyEnv) (basefile : String)
    (op : ArtifactPath × ArtifactPath)
    (h : op ∈ (if c.storagePolicy = "dir" then
      c.attachments.map fun a =>
        ((.parsed .subrepo basefile (some a) : ArtifactPath),
         (.parsed .composite basefile (some a) : ArtifactPath))
      else [])) :
    ∃ a, op.2 = .parsed .composite basefile (some a) := by
  by_cases hp : c.storagePolicy = "dir"
  · simp [hp] at h
    obtain ⟨a, ha, rfl⟩ := h
    exact ⟨a, rfl⟩
  · simp [hp] at h

/-- After a full copy, the composite's distilled file bears the source's
distilled modification time. -/
theorem applyFull_comp_distilled (c : CopyEnv) (fs : FileState)
    (basefile : String) :
    (applyOps fs (fullCopyOps c basefile)).mtime
        (.distilled .composite basefile) =
      fs.mtime (.distilled .subrepo basefile) := by
  unfold fullCopyOps
  rw [show ∀ l1 l2, applyOps fs (l1 ++ l2) = applyOps (applyOps fs l1) l2
    from fun l1 l2 => List.foldl_append applyOp fs l1 l2]
  rw [applyOps_mtime_of_not_target]
  · simp [applyOps, applyOp]
  · intro op hop
    obtain ⟨a, ha⟩ := attOps_target c basefile op hop
    simp [ha]

/-- After a full copy, the composite's parsed file bears the source's
parsed modification time. -/
theorem applyFull_comp_parsed (c : CopyEnv) (fs : FileState)
    (basefile : String) :
    (applyOps fs (fullCopyOps c basefile)).mtime
        (.parsed .composite basefile none) =
      fs.mtime (.parsed .subrepo basefile none) := by
  unfold fullCopyOps
  rw [show ∀ l1 l2, applyOps fs (l1 ++ l2) = applyOps (applyOps fs l1) l2
    from fun l1 l2 => List.foldl_append applyOp fs l1 l2]
  rw [applyOps_mtime_of_not_target]
  · simp [applyOps, applyOp]
  · intro op hop
    obtain ⟨a, ha⟩ := attOps_target c basefile op hop
    simp [ha]

/-- A full copy never modifies the source side. -/
theorem applyFull_sub_distilled (c : CopyEnv) (fs : FileState)
    (basefile : String) :
    (applyOps fs (fullCopyOps c basefile)).mtime
        (.distilled .subrepo basefile) =
      fs.mtime (.distilled .subrepo basefile) := by
  rw [applyOps_mtime_of_not_target]
  intro op hop
  rcases List.mem_append.mp hop with hop | hop
  · simp at hop
    rcases hop with rfl | rfl | rfl <;> simp
  · obtain ⟨a, ha⟩ := attOps_target c basefile op hop
    simp [ha]

/-- A full copy never modifies the source side. -/
theorem applyFull_sub_parsed (c : CopyEnv) (fs : FileState)
    (basefile : String) :
    (applyOps fs (fullCopyOps c basefile)).mtime
        (.parsed .subrepo basefile none) =
      fs.mtime (.parsed .subrepo basefile none) := by
  rw [applyOps_mtime_of_not_target]
  intro op hop
  rcases List.mem_append.mp hop with hop | hop
  · simp at hop
    rcases hop with rfl | rfl | rfl <;> simp
  · obtain ⟨a, ha⟩ := attOps_target c basefile op hop
    simp [ha]

/-- **C6.** Artifact propagation is idempotent with respect to writes:
with `config.force` unset, (i) whenever the freshness check shows the
composite's distilled and parsed copies are no older than the winning
source's own, `copy_parsed` performs zero link-or-copy operations; and
(ii) rerunning `copy_parsed` on the state a first run leaves behind (hard
links sharing the source's mtime) performs zero link-or-copy operations,
provided the source's distilled and parsed artifacts exist. -/
theorem copy_parsed_idempotent (c : CopyEnv) (fs : FileState)
    (basefile : String)
    (hforce : c.force = false)
    (hd : ∃ td, fs.mtime (.distilled .subrepo basefile) = some td)
    (hp : ∃ tp, fs.mtime (.parsed .subrepo basefile none) = some tp) :
    (outfileIsNewer fs [.distilled .subrepo basefile]
        (.distilled .composite basefile) = true →
      outfileIsNewer fs [.parsed .subrepo basefile none]
        (.parsed .composite basefile none) = true →
      copyParsedOps c fs basefile = []) ∧
    copyParsedOps c (applyOps fs (copyParsedOps c fs basefile)) basefile =
      [] := by
  obtain ⟨td, htd⟩ := hd
  obtain ⟨tp, htp⟩ := hp
  constructor
  · intro h1 h2
    simp [copyParsedOps, hforce, h1, h2]
  · by_cases h1 : outfileIsNewer fs [.distilled .subrepo basefile]
        (.distilled .composite basefile) = true
    · by_cases h2 : outfileIsNewer fs [.parsed .subrepo basefile none]
          (.parsed .composite basefile none) = true
      · have hskip : copyParsedOps c fs basefile = [] := by
          simp [copyParsedOps, hforce, h1, h2]
        rw [hskip]
        have : applyOps fs [] = fs := rfl
        rw [this]
        simp [copyParsedOps, hforce, h1, h2]
      · have hops : copyParsedOps c fs basefile = fullCopyOps c basefile := by
          simp [copyParsedOps, hforce, h2]
        rw [hops]
        have e1 := applyFull_comp_distilled c fs basefile
        have e2 := applyFull_comp_parsed c fs basefile
        have e3 := applyFull_sub_distilled c fs basefile
        have e4 := applyFull_sub_parsed c fs basefile
        simp [copyParsedOps, hforce, outfileIsNewer, e1, e2, e3, e4, htd,
          htp]
    · have hops : copyParsedOps c fs basefile = fullCopyOps c basefile := by
        simp [copyParsedOps, hforce, h1]
      rw [hops]
      have e1 := applyFull_comp_distilled c fs basefile
      have e2 := applyFull_comp_parsed c fs basefile
      have e3 := applyFull_sub_distilled c fs basefile
      have e4 := applyFull_sub_parsed c fs basefile
      simp [copyParsedOps, hforce, outfileIsNewer, e1, e2, e3, e4, htd, htp]

/-- Concrete file state: source artifacts exist, composite is empty. -/
def fsC6 : FileState :=
  { mtime := fun p =>
      if p = .distilled .subrepo "doc1" then some 5
      else if p = .parsed .subrepo "doc1" none then some 7
      else if p = .entry .subrepo "doc1" then some 3
      else none }

/-- Concrete copy inputs: directory storage with one attachment. -/
def copyEnvC6 : CopyEnv :=
  { force := false, storagePolicy := "dir", attachments := ["a1"] }

/-- Witness for C6 at a concrete state. -/
theorem copy_parsed_idempotent_witness :
    (outfileIsNewer fsC6 [.distilled .subrepo "doc1"]
        (.distilled .composite "doc1") = true →
      outfileIsNewer fsC6 [.parsed .subrepo "doc1" none]
        (.parsed .composite "doc1" none) = true →
      copyParsedOps copyEnvC6 fsC6 "doc1" = []) ∧
    copyParsedOps copyEnvC6
      (applyOps fsC6 (copyParsedOps copyEnvC6 fsC6 "doc1")) "doc1" = [] :=
  copy_parsed_idempotent copyEnvC6 fsC6 "doc1" rfl
    ⟨5, by decide⟩ ⟨7, by decide⟩

/-! ## DV uri-map protocol (C7, C9)

`DV.readmapfile` and the map-related part of `DV.postprocess_doc`
(dv.py lines 277–299 and 1493–1541).  A map file is an append-only list
of tab-separated `(path, filename)` lines; the model keeps each line
already split on its first tab.  The projection from `doc.uri` to the
path recorded in the map (`urlparse` for nginx map files, a fixed-length
prefix chop otherwise) is kept abstract: the model takes the resulting
path as input. -/

/-- Python `s.split(sep)` for a one-character separator, over chars. -/
def splitChars (sep : Char) : List Char → List (List Char)
  | [] => [[]]
  | c :: rest =>
    let r := splitChars sep rest
    if c = sep then [] :: r
    else
      match r with
      | [] => [[c]]
      | h :: t => (c :: h) :: t

/-- Python `s.split(sep)` (no maxsplit) for a one-character separator. -/
def pySplit (sep : Char) (s : String) : List String :=
  (splitChars sep s.data).map (fun l => String.mk l)

/-- Python `s.split(sep, n)`: at most `n` splits from the left. -/
def pySplitMax (sep : Char) (n : Nat) (s : String) : List String :=
  let parts := pySplit sep s
  if parts.length ≤ n + 1 then parts
  else parts.take n ++ [String.intercalate (String.mk [sep]) (parts.drop n)]

/-- Does `s` end with `suffix`? (Computable over chars so that concrete
instances evaluate in the kernel.) -/
def strEndsWith (suffix s : String) : Bool :=
  charsStartWith suffix.data.reverse s.data.reverse

/-- The basefile extraction in `map_append_needed`:
`filename.split("/", 3)[-1].split(".")[0]`.  (The `try`/`except` around
it is dead for strings: `split` never raises.) -/
def filenameToBasefile (filename : String) : String :=
  (pySplit '.' ((pySplitMax '/' 3 filename).getLastD filename)).headD
    filename

/-- One parsed line of a uri map file: `path TAB filename`. -/
structure MapEntry where
  path : String
  filename : String
deriving DecidableEq, Repr

/-- The map directory: existing files (name, parsed lines), in directory
order. -/
structure MapFS where
  files : List (String × List MapEntry)
deriving DecidableEq, Repr

/-- The DV configuration fields the map protocol reads, plus the writing
process's pid. -/
structure DVConfig where
  mapfiletype : String
  clientname : String
  pid : Nat
deriving DecidableEq, Repr

/-- Entries of one named file; a missing file contributes nothing (as
`readmapfile` skips non-existing files). -/
def fileEntries (fsys : MapFS) (name : String) : List MapEntry :=
  match fsys.files.lookup name with
  | some es => es
  | none => []

/-- The map files `DV.readmapfile` reads, flattened into one entry
sequence: with `config.clientname` set, every file in the directory with
suffix `.map` (modelled from the spec for `util.list_dirs`, whose source
is absent: §6 "readers must scan all such suffixed files plus the
canonical merged file"); otherwise only the canonical `uri.map`. -/
def scannedEntries (cfg : DVConfig) (fsys : MapFS) : List MapEntry :=
  if !(cfg.clientname = "") then
    ((fsys.files.filter (fun f => strEndsWith ".map" f.1)).map
      (fun f => f.2)).flatten
  else
    fileEntries fsys "uri.map"

/-- `readmapfile`'s callback loop: the first entry on which the callback
returns non-`None` decides the result; an exception propagates. -/
def runCallback (f : MapEntry → Except String (Option Bool)) :
    List MapEntry → Except String (Option Bool)
  | [] => .ok none
  | e :: rest =>
    match f e with
    | .error d => .error d
    | .ok (some r) => .ok (some r)
    | .ok none => runCallback f rest

/-- `DV.postprocess_doc.map_append_needed` (dv.py lines 1501–1523): when
a map entry's path equals the document's uri path, extract the stored
basefile from the entry's filename; a different basefile raises
`DuplicateReferatDoc` carrying the extracted basefile (`.error`), the
same basefile returns `False`; entries with other paths return `None`. -/
def mapAppendNeeded (docPath docBasefile : String) (e : MapEntry) :
    Except String (Option Bool) :=
  if e.path = docPath then
    let basefile := filenameToBasefile e.filename
    if !(docBasefile = basefile) then .error basefile
    else .ok (some false)
  else .ok none

/-- The map file `postprocess_doc` appends to: under multi-process
operation (`config.clientname` set) the per-process file
`uri.<clientname>.<pid>.map`, else the canonical `uri.map`. -/
def mapfileTarget (cfg : DVConfig) : String :=
  if !(cfg.clientname = "") then
    "uri." ++ cfg.clientname ++ "." ++ toString cfg.pid ++ ".map"
  else
    "uri.map"

/-- Append one entry to a named file, creating the file when absent
(`codecs.open(mapfile, "a")`). -/
def appendToFile : List (String × List MapEntry) → String → MapEntry →
    List (String × List MapEntry)
  | [], name, e => [(name, [e])]
  | f :: rest, name, e =>
    if f.1 = name then (f.1, f.2 ++ [e]) :: rest
    else f :: appendToFile rest name e

/-- The uri-map part of `DV.postprocess_doc` (dv.py lines 1493–1541):
scan the map files; a raised `DuplicateReferatDoc` (second component
`some dup`) propagates before any append, leaving the directory
untouched; otherwise, unless the scan returned `False` (entry already
present), append `(path, storedFilename)` to the target map file.  The
stored filename is `/dv/generated/<basefile>.html;` for nginx map files
and the bare basefile otherwise. -/
def postprocessDoc (cfg : DVConfig) (fsys : MapFS)
    (docPath docBasefile : String) : MapFS × Option String :=
  match runCallback (mapAppendNeeded docPath docBasefile)
      (scannedEntries cfg fsys) with
  | .error d => (fsys, some d)
  | .ok r =>
    if !(r = some false) then
      let stored :=
        if cfg.mapfiletype = "nginx" then
          "/dv/generated/" ++ docBasefile ++ ".html;"
        else docBasefile
      ({ files := appendToFile fsys.files (mapfileTarget cfg)
           ⟨docPath, stored⟩ }, none)
    else (fsys, none)

/-- Entries the callback passes over do not affect the scan result. -/
theorem runCallback_append_none (f : MapEntry → Except String (Option Bool))
    (l₁ l₂ : List MapEntry) (h : ∀ e ∈ l₁, f e = .ok none) :
    runCallback f (l₁ ++ l₂) = runCallback f l₂ := by
  induction l₁ with
  | nil => rfl
  | cons e rest ih =>
    have he : f e = .ok none := h e (by simp)
    have hr : ∀ x ∈ rest, f x = .ok none := fun x hx => h x (by simp [hx])
    simp [runCallback, he, ih hr]

/-- **C7 (amended).** If a second, distinct basefile resolves to a uri
path already recorded in the scanned map entries, the first recorder
wins: `postprocess_doc` raises `DuplicateReferatDoc` carrying the
basefile *extracted from the stored filename*
(`filename.split("/",3)[-1].split(".")[0]` — the full first basefile for
nginx-type map lines, but only the portion after the court prefix for
default/apache-type lines), and the map directory is left untouched (no
append happens). -/
theorem dv_duplicate_detection (cfg : DVConfig) (fsys : MapFS)
    (p f b2 : String) (pre post : List MapEntry)
    (hscan : scannedEntries cfg fsys = pre ++ ⟨p, f⟩ :: post)
    (hpre : ∀ e ∈ pre, e.path ≠ p)
    (hneq : b2 ≠ filenameToBasefile f) :
    postprocessDoc cfg fsys p b2 = (fsys, some (filenameToBasefile f)) := by
  have hnone : ∀ e ∈ pre, mapAppendNeeded p b2 e = .ok none := by
    intro e he
    simp [mapAppendNeeded, hpre e he]
  have hrun : runCallback (mapAppendNeeded p b2)
      (scannedEntries cfg fsys) = .error (filenameToBasefile f) := by
    rw [hscan, runCallback_append_none _ pre _ hnone]
    simp [runCallback, mapAppendNeeded, hneq]
  simp [postprocessDoc, hrun]

/-- The apache-type (default `mapfiletype`) configuration, single
process. -/
def dvCfgApache : DVConfig :=
  { mapfiletype := "apache", clientname := "", pid := 0 }

/-- **C7 counterexample.** With the default (apache-type) map file,
parsing `HDO/B883-81_1` records `(nja/1982s350, HDO/B883-81_1)`; a second
distinct basefile `HDO/B882-81_1` resolving to the same path does raise
`DuplicateReferatDoc` — but it carries `B883-81_1` (the stored filename's
final slash-separated component), not the first basefile
`HDO/B883-81_1`, refuting "carrying the first basefile" as stated. -/
theorem dv_duplicate_detection_counterexample :
    postprocessDoc dvCfgApache { files := [] }
        "nja/1982s350" "HDO/B883-81_1" =
      ({ files := [("uri.map",
          [{ path := "nja/1982s350", filename := "HDO/B883-81_1" }])] },
       none) ∧
    postprocessDoc dvCfgApache
        { files := [("uri.map",
            [{ path := "nja/1982s350", filename := "HDO/B883-81_1" }])] }
        "nja/1982s350" "HDO/B882-81_1" =
      ({ files := [("uri.map",
          [{ path := "nja/1982s350", filename := "HDO/B883-81_1" }])] },
       some "B883-81_1") ∧
    "B883-81_1" ≠ "HDO/B883-81_1" := by
  decide

/-- Witness for the amended C7: the duplicate condition at a concrete map
state, carrying the extracted basefile. -/
theorem dv_duplicate_detection_witness :
    postprocessDoc dvCfgApache
        { files := [("uri.map",
            [{ path := "other/path", filename := "X/1" },
             { path := "nja/1982s350", filename := "HDO/B883-81_1" }])] }
        "nja/1982s350" "HFD/1112-14" =
      ({ files := [("uri.map",
          [{ path := "other/path", filename := "X/1" },
           { path := "nja/1982s350", filename := "HDO/B883-81_1" }])] },
       some (filenameToBasefile "HDO/B883-81_1")) :=
  dv_duplicate_detection dvCfgApache _ "nja/1982s350" "HDO/B883-81_1"
    "HFD/1112-14" [{ path := "other/path", filename := "X/1" }] []
    (by decide) (by decide) (by decide)

/-- A list starting with itself followed by anything. -/
theorem charsStartWith_self_append (l m : List Char) :
    charsStartWith l (l ++ m) = true := by
  induction l with
  | nil => rfl
  | cons a as ih => simp [charsStartWith, ih]

/-- A string formed by appending `suffix` ends with `suffix`. -/
theorem strEndsWith_append (x suffix : String) :
    strEndsWith suffix (x ++ suffix) = true := by
  unfold strEndsWith
  rw [String.data_append, List.reverse_append]
  exact charsStartWith_self_append suffix.data.reverse x.data.reverse

/-- Appending to one map file leaves every other file's contents
unchanged. -/
theorem appendToFile_lookup_other (files : List (String × List MapEntry))
    (name : String) (e : MapEntry) (g : String) (h : g ≠ name) :
    (appendToFile files name e).lookup g = files.lookup g := by
  induction files with
  | nil =>
    have hbeq : (g == name) = false := by simpa using h
    simp [appendToFile, List.lookup, hbeq]
  | cons f rest ih =>
    rcases f with ⟨fn, fes⟩
    by_cases hf : fn = name
    · subst hf
      have hbeq : (g == fn) = false := by simpa using h
      simp [appendToFile, List.lookup, hbeq]
    · simp [appendToFile, hf, List.lookup, ih]

/-- **C9.** Under multi-process operation (`config.clientname` set),
`postprocess_doc` appends only to this process's own map file
`uri.<clientname>.<pid>.map` — every other file's entries are unchanged —
and `readmapfile` scans every file in the map directory with suffix
`.map` (in particular the canonical `uri.map` and every process's
suffixed file, since every `mapfileTarget` ends in `.map`) before
deciding whether an entry exists. -/
theorem dv_multiprocess_map (cfg : DVConfig) (fsys : MapFS)
    (hclient : cfg.clientname ≠ "") :
    (mapfileTarget cfg =
      "uri." ++ cfg.clientname ++ "." ++ toString cfg.pid ++ ".map") ∧
    (∀ p b g, g ≠ mapfileTarget cfg →
      fileEntries (postprocessDoc cfg fsys p b).1 g = fileEntries fsys g) ∧
    (∀ cfg2 : DVConfig, strEndsWith ".map" (mapfileTarget cfg2) = true) ∧
    (∀ fp ∈ fsys.files, strEndsWith ".map" fp.1 = true →
      ∀ e ∈ fp.2, e ∈ scannedEntries cfg fsys) := by
  refine ⟨by simp [mapfileTarget, hclient], ?_, ?_, ?_⟩
  · intro p b g hg
    cases hrc : runCallback (mapAppendNeeded p b)
        (scannedEntries cfg fsys) with
    | error d => simp [postprocessDoc, hrc]
    | ok r =>
      by_cases hr : (!(r = some false)) = true
      · simp only [postprocessDoc, hrc, hr, if_pos]
        simp [fileEntries, appendToFile_lookup_other fsys.files
          (mapfileTarget cfg) _ g hg]
      · simp [postprocessDoc, hrc, hr]
  · intro cfg2
    by_cases hc : cfg2.clientname = ""
    · simp [mapfileTarget, hc]
      decide
    · have : mapfileTarget cfg2 =
          ("uri." ++ cfg2.clientname ++ "." ++ toString cfg2.pid) ++
            ".map" := by
        simp [mapfileTarget, hc, String.append_assoc]
      rw [this]
      exact strEndsWith_append _ _
  · intro fp hfp hsuf e he
    have hsc : scannedEntries cfg fsys =
        ((fsys.files.filter (fun f => strEndsWith ".map" f.1)).map
          (fun f => f.2)).flatten := by
      simp [scannedEntries, hclient]
    rw [hsc]
    exact List.mem_flatten.mpr
      ⟨fp.2, List.mem_map.mpr ⟨fp, List.mem_filter.mpr ⟨hfp, hsuf⟩, rfl⟩, he⟩

/-- A concrete multi-process configuration. -/
def dvCfgClient : DVConfig :=
  { mapfiletype := "apache", clientname := "sophie", pid := 4435 }

/-- A concrete map directory with the canonical file and another
process's suffixed file. -/
def mapFSClient : MapFS :=
  { files := [("uri.map", [{ path := "p1", filename := "A/1" }]),
              ("uri.alice.99.map", [{ path := "p2", filename := "B/2" }]),
              ("notes.txt", [{ path := "p3", filename := "C/3" }])] }

/-- Witness for C9 at a concrete configuration and directory. -/
theorem dv_multiprocess_map_witness :
    (mapfileTarget dvCfgClient =
      "uri." ++ dvCfgClient.clientname ++ "." ++
        toString dvCfgClient.pid ++ ".map") ∧
    (∀ p b g, g ≠ mapfileTarget dvCfgClient →
      fileEntries (postprocessDoc dvCfgClient mapFSClient p b).1 g =
        fileEntries mapFSClient g) ∧
    (∀ cfg2 : DVConfig, strEndsWith ".map" (mapfileTarget cfg2) = true) ∧
    (∀ fp ∈ mapFSClient.files, strEndsWith ".map" fp.1 = true →
      ∀ e ∈ fp.2, e ∈ scannedEntries dvCfgClient mapFSClient) :=
  dv_multiprocess_map dvCfgClient mapFSClient (by decide)

/-! ## DV.get_parser recognizer declaration order (C8)

`DV.get_parser` (dv.py line 1598) declares the recognizers of its two
parse configurations with `p.set_recognizers(...)`.  Each recognizer other
than `is_paragraph` peeks the next chunk and runs a regular-expression or
heuristic analysis over Swedish legal text via Python's `re` module; the
boolean outcome of that external analysis at the current parse position is
supplied here as an oracle field of `ChunkEnv`.  `is_paragraph` itself
(dv.py lines 1956–1957) is literally `return True`. -/

/-- The outcome, at one parse position, of each chunk analysis used by the
regex-based recognizers of `DV.get_parser`. -/
structure ChunkEnv where
  delmal : Bool
  endmeta : Bool
  instans : Bool
  dom : Bool
  betankande : Bool
  domskal : Bool
  domslut : Bool
  skiljaktig : Bool
  tillagg : Bool
  heading : Bool
deriving DecidableEq, Repr

def is_delmal (env : ChunkEnv) : Bool := env.delmal

def is_endmeta (env : ChunkEnv) : Bool := env.endmeta

def is_instans (env : ChunkEnv) : Bool := env.instans

def is_dom (env : ChunkEnv) : Bool := env.dom

def is_betankande (env : ChunkEnv) : Bool := env.betankande

def is_domskal (env : ChunkEnv) : Bool := env.domskal

def is_domslut (env : ChunkEnv) : Bool := env.domslut

def is_skiljaktig (env : ChunkEnv) : Bool := env.skiljaktig

def is_tillagg (env : ChunkEnv) : Bool := env.tillagg

def is_heading (env : ChunkEnv) : Bool := env.heading

/-- `def is_paragraph(parser): return True` (dv.py lines 1956–1957). -/
def is_paragraph (_ : ChunkEnv) : Bool := true

/-- The recognizers of the "default" parse configuration, in the order of
the `p.set_recognizers(...)` call (dv.py lines 2272–2283). -/
def dvRecognizersDefault : List (String × (ChunkEnv → Bool)) :=
  [("is_delmal", is_delmal),
   ("is_endmeta", is_endmeta),
   ("is_instans", is_instans),
   ("is_dom", is_dom),
   ("is_betankande", is_betankande),
   ("is_domskal", is_domskal),
   ("is_domslut", is_domslut),
   ("is_skiljaktig", is_skiljaktig),
   ("is_tillagg", is_tillagg),
   ("is_heading", is_heading),
   ("is_paragraph", is_paragraph)]

/-- The recognizers of the "simple" parse configuration (dv.py lines
2262–2266). -/
def dvRecognizersSimple : List (String × (ChunkEnv → Bool)) :=
  [("is_paragraph", is_paragraph)]

/-- Modelled from the spec: the FSM engine (`ferenda/fsmparser.py`,
absent from the embedded code base) evaluates recognizers in declared
order against the peeked chunk and the first one that matches wins
(§4.1 step 2b; §3: "ambiguity (multiple recognizers firing) is resolved
by declaration order (first match wins)"). -/
def chooseRecognizer (recs : List (String × (ChunkEnv → Bool)))
    (env : ChunkEnv) : Option String :=
  (recs.find? (fun r => r.2 env)).map (fun r => r.1)

/-- **C8.** In both grammars `DV.get_parser` constructs, the catch-all
`is_paragraph` returns `True` at every parse position and is declared
last in the recognizer list; hence the declaration-order tie-break never
selects the catch-all when any more specific recognizer matches, a
recognizer is selected at every position, and the simple configuration
always selects the catch-all. -/
theorem dv_catchall_recognizer :
    (∀ env : ChunkEnv, is_paragraph env = true) ∧
    (dvRecognizersDefault.map (fun r => r.1)).getLast? =
      some "is_paragraph" ∧
    (dvRecognizersSimple.map (fun r => r.1)).getLast? =
      some "is_paragraph" ∧
    (∀ d em ins dm bt dsk dsl sk tl hd : Bool,
      chooseRecognizer dvRecognizersDefault
        ⟨d, em, ins, dm, bt, dsk, dsl, sk, tl, hd⟩ ≠ none) ∧
    (∀ d em ins dm bt dsk dsl sk tl hd : Bool,
      chooseRecognizer dvRecognizersSimple
        ⟨d, em, ins, dm, bt, dsk, dsl, sk, tl, hd⟩ =
        some "is_paragraph") ∧
    (∀ d em ins dm bt dsk dsl sk tl hd : Bool,
      (d || em || ins || dm || bt || dsk || dsl || sk || tl || hd) =
        true →
      chooseRecognizer dvRecognizersDefault
        ⟨d, em, ins, dm, bt, dsk, dsl, sk, tl, hd⟩ ≠
        some "is_paragraph") := by
  refine ⟨fun env => rfl, rfl, rfl, ?_, ?_, ?_⟩ <;> decide

/-- Witness for C8: with only the heading analysis matching, the selected
recognizer is not the catch-all, although the catch-all also matches. -/
theorem dv_catchall_recognizer_witness :
    chooseRecognizer dvRecognizersDefault
      ⟨false, false, false, false, false, false, false, false, false,
       true⟩ ≠ some "is_paragraph" ∧
    is_paragraph
      ⟨false, false, false, false, false, false, false, false, false,
       true⟩ = true :=
  ⟨dv_catchall_recognizer.2.2.2.2.2 false false false false false false
     false false false true (by decide),
   dv_catchall_recognizer.1
     ⟨false, false, false, false, false, false, false, false, false,
      true⟩⟩

/-! ## CompositeStore.list_basefiles_for (C10)

For `action == "parse"` (compositerepository.py lines 29–48; note the
code's `if action in ("parse")` is a substring test on the string
`"parse"`, true for the action `"parse"`), the store iterates
`docrepo_instances`, records every listed basefile in
`self.basefiles[cls]` (a set), and yields each basefile not already seen
in the cross-instance `documents` set. -/

/-- One subrepo instance as seen by `CompositeStore.list_basefiles_for`:
its class (the key of `docrepo_instances`) and what its own store's
`list_basefiles_for(action, force=force)` yields. -/
structure SubListing where
  cls : String
  basefiles : List String
deriving DecidableEq, Repr

/-- `set.add`: append if absent (insertion-ordered set as a list). -/
def addToSet (x : String) (s : List String) : List String :=
  if x ∈ s then s else s ++ [x]

/-- The inner `for basefile in inst.store.list_basefiles_for(...)` loop:
threads the `documents` set and this class's `basefiles[cls]` set,
returning `(documents, clsSet, yielded)`. -/
def instLoop : List String → List String → List String →
    List String × List String × List String
  | docs, clsSet, [] => (docs, clsSet, [])
  | docs, clsSet, b :: rest =>
    let cs2 := addToSet b clsSet
    if b ∈ docs then instLoop docs cs2 rest
    else
      let r := instLoop (docs ++ [b]) cs2 rest
      (r.1, r.2.1, b :: r.2.2)

/-- The outer `for cls, inst in self.docrepo_instances.items()` loop:
returns the yielded basefiles and the recorded
`(cls, basefiles[cls])` pairs. -/
def storeLoop : List String → List SubListing →
    List String × List (String × List String)
  | _, [] => ([], [])
  | docs, i :: rest =>
    let r := instLoop docs [] i.basefiles
    let rr := storeLoop r.1 rest
    (r.2.2 ++ rr.1, (i.cls, r.2.1) :: rr.2)

/-- `CompositeStore.list_basefiles_for("parse")` on a fresh store
(`self.basefiles` starts as an empty `defaultdict(set)`). -/
def listBasefilesForParse (insts : List SubListing) :
    List String × List (String × List String) :=
  storeLoop [] insts

theorem addToSet_mem (x b : String) (s : List String) :
    x ∈ addToSet b s ↔ x ∈ s ∨ x = b := by
  unfold addToSet
  by_cases hb : b ∈ s
  · simp only [hb, if_true]
    constructor
    · exact Or.inl
    · rintro (h | rfl)
      · exact h
      · exact hb
  · simp [hb]

/-- The final `documents` set is the initial one plus the yielded
basefiles, in order. -/
theorem instLoop_docs_eq (docs cs bs : List String) :
    (instLoop docs cs bs).1 = docs ++ (instLoop docs cs bs).2.2 := by
  induction bs generalizing docs cs with
  | nil => simp [instLoop]
  | cons b rest ih =>
    by_cases hb : b ∈ docs
    · simp [instLoop, hb, ih]
    · simp [instLoop, hb, ih (docs ++ [b]) (addToSet b cs)]

/-- Membership in the final `documents` set. -/
theorem instLoop_docs_mem (docs cs bs : List String) (x : String) :
    x ∈ (instLoop docs cs bs).1 ↔ x ∈ docs ∨ x ∈ bs := by
  induction bs generalizing docs cs with
  | nil => simp [instLoop]
  | cons b rest ih =>
    by_cases hb : b ∈ docs
    · rw [show instLoop docs cs (b :: rest) =
          instLoop docs (addToSet b cs) rest by simp [instLoop, hb]]
      rw [ih]
      constructor
      · rintro (h | h)
        · exact Or.inl h
        · exact Or.inr (by simp [h])
      · rintro (h | h)
        · exact Or.inl h
        · rcases List.mem_cons.mp h with rfl | h
          · exact Or.inl hb
          · exact Or.inr h
    · rw [show (instLoop docs cs (b :: rest)).1 =
          (instLoop (docs ++ [b]) (addToSet b cs) rest).1 by
        simp [instLoop, hb]]
      rw [ih]
      simp [or_assoc]

/-- The `documents` set stays duplicate-free. -/
theorem instLoop_docs_nodup (docs cs bs : List String)
    (h : docs.Nodup) : (instLoop docs cs bs).1.Nodup := by
  induction bs generalizing docs cs with
  | nil => simpa [instLoop]
  | cons b rest ih =>
    by_cases hb : b ∈ docs
    · rw [show instLoop docs cs (b :: rest) =
          instLoop docs (addToSet b cs) rest by simp [instLoop, hb]]
      exact ih docs (addToSet b cs) h
    · rw [show (instLoop docs cs (b :: rest)).1 =
          (instLoop (docs ++ [b]) (addToSet b cs) rest).1 by
        simp [instLoop, hb]]
      refine ih (docs ++ [b]) (addToSet b cs) ?_
      simp [List.nodup_append, h, hb]

/-- Membership in one class's recorded set: exactly what that instance
listed (plus whatever was already recorded). -/
theorem instLoop_clsSet_mem (docs cs bs : List String) (x : String) :
    x ∈ (instLoop docs cs bs).2.1 ↔ x ∈ cs ∨ x ∈ bs := by
  induction bs generalizing docs cs with
  | nil => simp [instLoop]
  | cons b rest ih =>
    by_cases hb : b ∈ docs
    · rw [show instLoop docs cs (b :: rest) =
          instLoop docs (addToSet b cs) rest by simp [instLoop, hb]]
      rw [ih, addToSet_mem]
      constructor
      · rintro ((h | rfl) | h)
        · exact Or.inl h
        · exact Or.inr (by simp)
        · exact Or.inr (by simp [h])
      · rintro (h | h)
        · exact Or.inl (Or.inl h)
        · rcases List.mem_cons.mp h with rfl | h
          · exact Or.inl (Or.inr rfl)
          · exact Or.inr h
    · rw [show (instLoop docs cs (b :: rest)).2.1 =
          (instLoop (docs ++ [b]) (addToSet b cs) rest).2.1 by
        simp [instLoop, hb]]
      rw [ih, addToSet_mem]
      constructor
      · rintro ((h | rfl) | h)
        · exact Or.inl h
        · exact Or.inr (by simp)
        · exact Or.inr (by simp [h])
      · rintro (h | h)
        · exact Or.inl (Or.inl h)
        · rcases List.mem_cons.mp h with rfl | h
          · exact Or.inl (Or.inr rfl)
          · exact Or.inr h

/-- Membership among the yielded basefiles of one instance: listed and
not previously seen. -/
theorem instLoop_yield_mem (docs cs bs : List String) (x : String)
    (h : docs.Nodup) :
    x ∈ (instLoop docs cs bs).2.2 ↔ x ∈ bs ∧ x ∉ docs := by
  have hd := instLoop_docs_eq docs cs bs
  have hn := instLoop_docs_nodup docs cs bs h
  rw [hd, List.nodup_append] at hn
  constructor
  · intro hx
    have hx1 : x ∈ (instLoop docs cs bs).1 := by
      rw [hd]
      exact List.mem_append_right docs hx
    have := (instLoop_docs_mem docs cs bs x).mp hx1
    have hnd : x ∉ docs := fun hdoc => hn.2.2 hdoc hx
    rcases this with hdoc | hbs
    · exact absurd hdoc hnd
    · exact ⟨hbs, hnd⟩
  · rintro ⟨hbs, hnd⟩
    have hx1 : x ∈ (instLoop docs cs bs).1 :=
      (instLoop_docs_mem docs cs bs x).mpr (Or.inr hbs)
    rw [hd] at hx1
    rcases List.mem_append.mp hx1 with hdoc | hy
    · exact absurd hdoc hnd
    · exact hy

/-- The yielded basefiles of one instance are duplicate-free. -/
theorem instLoop_yield_nodup (docs cs bs : List String)
    (h : docs.Nodup) : (instLoop docs cs bs).2.2.Nodup := by
  have hd := instLoop_docs_eq docs cs bs
  have hn := instLoop_docs_nodup docs cs bs h
  rw [hd, List.nodup_append] at hn
  exact hn.2.1

/-- A basefile is yielded by the store iff some instance listed it and it
was not among the initially seen documents. -/
theorem storeLoop_yield_mem (docs : List String) (insts : List SubListing)
    (x : String) (h : docs.Nodup) :
    x ∈ (storeLoop docs insts).1 ↔
      x ∉ docs ∧ ∃ i ∈ insts, x ∈ i.basefiles := by
  induction insts generalizing docs with
  | nil => simp [storeLoop]
  | cons i rest ih =>
    have hnd2 : (instLoop docs [] i.basefiles).1.Nodup :=
      instLoop_docs_nodup docs [] i.basefiles h
    rw [show (storeLoop docs (i :: rest)).1 =
        (instLoop docs [] i.basefiles).2.2 ++
          (storeLoop (instLoop docs [] i.basefiles).1 rest).1 from rfl]
    rw [List.mem_append, instLoop_yield_mem docs [] i.basefiles x h,
      ih _ hnd2, instLoop_docs_mem]
    simp only [List.exists_mem_cons_iff]
    tauto

/-- The store never yields the same basefile twice. -/
theorem storeLoop_yield_nodup (docs : List String)
    (insts : List SubListing) (h : docs.Nodup) :
    (storeLoop docs insts).1.Nodup := by
  induction insts generalizing docs with
  | nil => simp [storeLoop]
  | cons i rest ih =>
    have h1 := instLoop_yield_nodup docs [] i.basefiles h
    have hnd2 := instLoop_docs_nodup docs [] i.basefiles h
    have h2 := ih _ hnd2
    rw [show (storeLoop docs (i :: rest)).1 =
        (instLoop docs [] i.basefiles).2.2 ++
          (storeLoop (instLoop docs [] i.basefiles).1 rest).1 from rfl]
    rw [List.nodup_append]
    refine ⟨h1, h2, ?_⟩
    intro a ha hrest
    have hin : a ∈ (instLoop docs [] i.basefiles).1 := by
      rw [instLoop_docs_eq]
      exact List.mem_append_right _ ha
    have hout := (storeLoop_yield_mem _ rest a hnd2).mp hrest
    exact hout.1 hin

/-- Each instance's recorded set holds exactly what that instance
listed. -/
theorem storeLoop_recorded (docs : List String) (insts : List SubListing)
    (hn : (insts.map (fun i => i.cls)).Nodup) :
    ∀ i ∈ insts, ∃ s,
      (storeLoop docs insts).2.lookup i.cls = some s ∧
      ∀ x, x ∈ s ↔ x ∈ i.basefiles := by
  induction insts generalizing docs with
  | nil => simp
  | cons j rest ih =>
    rw [List.map_cons, List.nodup_cons] at hn
    intro i hi
    rcases List.mem_cons.mp hi with rfl | hi
    · refine ⟨(instLoop docs [] i.basefiles).2.1, ?_, ?_⟩
      · show List.lookup i.cls
          ((i.cls, (instLoop docs [] i.basefiles).2.1) ::
            (storeLoop (instLoop docs [] i.basefiles).1 rest).2) =
          some (instLoop docs [] i.basefiles).2.1
        simp [List.lookup]
      · intro x
        rw [instLoop_clsSet_mem]
        simp
    · have hjne : (i.cls == j.cls) = false := by
        refine beq_eq_false_iff_ne.mpr ?_
        intro hEq
        exact hn.1 (hEq ▸ List.mem_map_of_mem (fun i => i.cls) hi)
      obtain ⟨s, hs, hmem⟩ :=
        ih (instLoop docs [] j.basefiles).1 hn.2 i hi
      refine ⟨s, ?_, hmem⟩
      show List.lookup i.cls
        ((j.cls, (instLoop docs [] j.basefiles).2.1) ::
          (storeLoop (instLoop docs [] j.basefiles).1 rest).2) = some s
      simp only [List.lookup, hjne]
      exact hs

/-- **C10.** For the action `"parse"`, `CompositeStore.list_basefiles_for`
yields each distinct basefile at most once; a basefile is yielded iff
some sub-repository listed it; and, as it runs, it records in
`store.basefiles` for every sub-repository exactly the set of basefiles
that sub-repository listed — the eligibility record later consulted by
`get_preferred_instances`. -/
theorem composite_store_list_basefiles (insts : List SubListing)
    (hn : (insts.map (fun i => i.cls)).Nodup) :
    (listBasefilesForParse insts).1.Nodup ∧
    (∀ x, x ∈ (listBasefilesForParse insts).1 ↔
      ∃ i ∈ insts, x ∈ i.basefiles) ∧
    (∀ i ∈ insts, ∃ s,
      (listBasefilesForParse insts).2.lookup i.cls = some s ∧
      ∀ x, x ∈ s ↔ x ∈ i.basefiles) := by
  refine ⟨storeLoop_yield_nodup [] insts (by simp), ?_,
    storeLoop_recorded [] insts hn⟩
  intro x
  rw [show (listBasefilesForParse insts).1 = (storeLoop [] insts).1 from
    rfl]
  rw [storeLoop_yield_mem [] insts x (by simp)]
  simp

/-- Two instances sharing one basefile. -/
def instsC10 : List SubListing :=
  [{ cls := "SubA", basefiles := ["d1", "d2"] },
   { cls := "SubB", basefiles := ["d2", "d3"] }]

/-- Witness for C10 at a concrete pair of instances with an overlapping
basefile. -/
theorem composite_store_list_basefiles_witness :
    (listBasefilesForParse instsC10).1.Nodup ∧
    (∀ x, x ∈ (listBasefilesForParse instsC10).1 ↔
      ∃ i ∈ instsC10, x ∈ i.basefiles) ∧
    (∀ i ∈ instsC10, ∃ s,
      (listBasefilesForParse instsC10).2.lookup i.cls = some s ∧
      ∀ x, x ∈ s ↔ x ∈ i.basefiles) :=
  composite_store_list_basefiles instsC10 (by decide)

end Ferenda
